import Mathlib

/-!
notify-bot: the file-backed state store and the watermark filter

A shallow embedding of `internal/storage/fs.go` and `internal/storage/state.go`
(package `storage`), together with the watermark filter of the feed package.

Conventions of the embedding.

* Go slices of `int64` are headers pointing into a heap of backing arrays, so that
  aliasing between a caller's slice and the store's slice is visible.
* A Go `map[string]time.Time` is `Option FeedMap`: `none` is the nil map.
* The file system is an explicit value threaded through every operation.
* The mutex of `FileStorage` serialises the methods; every method is embedded as one
  atomic step and the mutex itself is not represented.
* `gopkg.in/yaml.v2` is an external library: the store is parametrised by a `Codec`.
-/

set_option autoImplicit false

namespace storage

/-! ## Time -/

/-- A `time.Time` instant: whole seconds since 0001-01-01T00:00:00Z and nanoseconds
within the second. The zero value of the Go type is `⟨0, 0⟩`. -/
structure Time where
  sec : Int
  nsec : Nat
deriving DecidableEq

namespace Time

/-- The zero value `time.Time{}`. -/
def zero : Time := ⟨0, 0⟩

/-- Go `t.IsZero()`. -/
def IsZero (t : Time) : Bool := t.sec == 0 && t.nsec == 0

/-- Go `t.After(u)`: `t` is strictly later than `u`. -/
def After (t u : Time) : Bool := decide (u.sec < t.sec) || (u.sec == t.sec && decide (u.nsec < t.nsec))

/-- Go `t.Before(u)`: `t` is strictly earlier than `u`. -/
def Before (t u : Time) : Bool := After u t

/-- The instant `t` is not later than `u`. -/
def le (t u : Time) : Prop := ¬ (After t u = true)

instance : LE Time := ⟨le⟩

instance (t u : Time) : Decidable (t ≤ u) := inferInstanceAs (Decidable (¬ (After t u = true)))

/-- Days from 0001-01-01 to the civil date `y-m-d` of the proleptic Gregorian calendar
(`1 ≤ y`, `1 ≤ m ≤ 12`). -/
def daysFromCivil (y m d : Nat) : Nat :=
  let y1 := if m ≤ 2 then y - 1 else y
  let era := y1 / 400
  let yoe := y1 % 400
  let mp := if m ≤ 2 then m + 9 else m - 3
  let doy := (153 * mp + 2) / 5 + (d - 1)
  let doe := yoe * 365 + yoe / 4 - yoe / 100 + doy
  era * 146097 + doe - 306

/-- Go `time.Date(y, m, d, hh, mm, ss, 0, time.UTC)` for a date in range. -/
def Date (y m d hh mm ss : Nat) : Time :=
  ⟨((daysFromCivil y m d * 86400 + hh * 3600 + mm * 60 + ss : Nat) : Int), 0⟩

/-- Civil date `(year, month, day)` of a day count from 0001-01-01. -/
def civilFromDays (days : Nat) : Nat × Nat × Nat :=
  let z := days + 306
  let era := z / 146097
  let doe := z % 146097
  let yoe := (doe - doe / 1460 + doe / 36524 - doe / 146096) / 365
  let y := yoe + era * 400
  let doy := doe - (365 * yoe + yoe / 4 - yoe / 100)
  let mp := (5 * doy + 2) / 153
  let d := doy - (153 * mp + 2) / 5 + 1
  let m := if mp < 10 then mp + 3 else mp - 9
  (if m ≤ 2 then y + 1 else y, m, d)

end Time

/-! ## Slices and the heap of backing arrays -/

/-- The heap of `int64` backing arrays; an address is an index into the list. -/
abbrev Heap := List (List Int)

/-- A Go `[]int64` value: the nil slice, or a header `(array, offset, length)`.
Capacity is not represented: the store never appends. -/
inductive Slice where
  | nil
  | ref (arr off len : Nat)
deriving DecidableEq

namespace Slice

/-- Go `len(s)`. -/
def length : Slice → Nat
  | nil => 0
  | ref _ _ n => n

/-- The elements a slice denotes in a heap. -/
def elems (h : Heap) : Slice → List Int
  | nil => []
  | ref a o n => ((h.getD a []).drop o).take n

/-- The value a marshaller sees: `none` for the nil slice. -/
def val (h : Heap) : Slice → Option (List Int)
  | nil => none
  | ref a o n => some (((h.getD a []).drop o).take n)

end Slice

namespace Heap

/-- Allocate a fresh backing array holding `xs`; returns the slice over all of it. -/
def alloc (h : Heap) (xs : List Int) : Slice × Heap :=
  (Slice.ref h.length 0 xs.length, h ++ [xs])

/-- Go `s[i] = v`: `none` is the index-out-of-range panic. -/
def setElem (h : Heap) (s : Slice) (i : Nat) (v : Int) : Option Heap :=
  match s with
  | Slice.nil => none
  | Slice.ref a o n =>
    if i < n then some (h.set a ((h.getD a []).set (o + i) v)) else none

end Heap

/-! ## Maps -/

/-- The entries of a non-nil `map[string]time.Time`, at most one per key in use. -/
abbrev FeedMap := List (String × Time)

namespace FeedMap

/-- Go `m[k]` on a non-nil map: the zero time when `k` is absent. -/
def get (m : FeedMap) (k : String) : Time :=
  match m with
  | [] => Time.zero
  | (k1, v) :: rest => if k1 = k then v else get rest k

/-- Go `m[k] = v` on a non-nil map. -/
def set (m : FeedMap) (k : String) (v : Time) : FeedMap :=
  match m with
  | [] => [(k, v)]
  | (k1, v1) :: rest => if k1 = k then (k, v) :: rest else (k1, v1) :: set rest k v

end FeedMap

/-! ## `state.go` -/

/-- Go `State`: the representation of application state. -/
structure State where
  Chats : Slice
  Feeds : Option FeedMap
deriving DecidableEq

/-- The value of a `State` as a marshaller reads it (slice dereferenced). -/
structure StateVal where
  Chats : Option (List Int)
  Feeds : Option FeedMap
deriving DecidableEq

/-- Dereference the slice of a state. -/
def State.val (h : Heap) (s : State) : StateVal :=
  { Chats := s.Chats.val h, Feeds := s.Feeds }

/-! ## The external collaborators: YAML codec and file system -/

/-- The two entry points of `gopkg.in/yaml.v2` used by the store.
`Unmarshal b v` decodes `b` into a value that currently holds `v`. -/
structure Codec where
  Marshal : StateVal → Except String String
  Unmarshal : String → StateVal → Except String StateVal

/-- What a path holds. -/
inductive FileEntry where
  | absent
  | data (content : String)
  | unreadable (err : String)
deriving DecidableEq

/-- A file system: what each path holds, and for each write whether it fails; a failing
write reports a message and leaves some entry at the path (the old one, a truncated
file, ...). -/
structure FS where
  entry : String → FileEntry
  writeFault : String → String → Option (String × FileEntry)

/-- The error of a failed read. -/
inductive ReadErr where
  | notExist
  | other (msg : String)
deriving DecidableEq

/-- Go `ioutil.ReadFile`. -/
def ReadFile (fs : FS) (file : String) : Except ReadErr String :=
  match fs.entry file with
  | FileEntry.absent => Except.error ReadErr.notExist
  | FileEntry.unreadable msg => Except.error (ReadErr.other msg)
  | FileEntry.data b => Except.ok b

/-- Put an entry at a path. -/
def FS.put (fs : FS) (file : String) (e : FileEntry) : FS :=
  { fs with entry := fun p => if p = file then e else fs.entry p }

/-- Go `ioutil.WriteFile(file, b, 0o600)`: the new file system and the error, if any. -/
def WriteFile (fs : FS) (file : String) (b : String) : FS × Option String :=
  match fs.writeFault file b with
  | some (msg, left) => (fs.put file left, some msg)
  | none => (fs.put file (FileEntry.data b), none)

/-- Everything outside the store that its methods read or change. -/
structure World where
  heap : Heap
  fs : FS

/-! ## `fs.go` -/

/-- Go `FileStorage` (without its mutex). -/
structure FileStorage where
  file : String
  state : State
deriving DecidableEq

/-- The result of a call that may panic. -/
inductive Result (α : Type) where
  | ret (a : α)
  | panic (msg : String)

/-- Go `errors.Wrap(err, msg).Error()`. -/
def Wrap (err : String) (msg : String) : String := msg ++ ": " ++ err

/-- Go `(*FileStorage).save`: rewrites whole current state in file. -/
def save (y : Codec) (w : World) (s : FileStorage) : World × Option String :=
  match y.Marshal (s.state.val w.heap) with
  | Except.error e => (w, some (Wrap e "encode data"))
  | Except.ok b =>
    match WriteFile w.fs s.file b with
    | (fs1, some e) => ({ w with fs := fs1 }, some (Wrap e "write data to file"))
    | (fs1, none) => ({ w with fs := fs1 }, none)

/-- Store a decoded value into a state whose slice was nil: a decoded list gets a
fresh backing array. -/
def State.ofVal (h : Heap) (v : StateVal) : State × Heap :=
  match v.Chats with
  | none => ({ Chats := Slice.nil, Feeds := v.Feeds }, h)
  | some xs => ({ Chats := (Heap.alloc h xs).1, Feeds := v.Feeds }, (Heap.alloc h xs).2)

/-- Go `NewFileStorage`: creates new file storage. -/
def NewFileStorage (y : Codec) (w : World) (file : String) : Except String FileStorage × World :=
  let s : FileStorage := { file := file, state := { Chats := Slice.nil, Feeds := some [] } }
  match ReadFile w.fs s.file with
  | Except.error ReadErr.notExist =>
    match save y w s with
    | (w1, some e) => (Except.error (Wrap e "init file"), w1)
    | (w1, none) => (Except.ok s, w1)
  | Except.error (ReadErr.other e) => (Except.error (Wrap e "read file"), w)
  | Except.ok b =>
    match y.Unmarshal b (s.state.val w.heap) with
    | Except.error e => (Except.error (Wrap e "decode data"), w)
    | Except.ok v =>
      let st := (State.ofVal w.heap v).1
      let st := if st.Feeds = none then { st with Feeds := some [] } else st
      (Except.ok { s with state := st }, { w with heap := (State.ofVal w.heap v).2 })

/-- Go `(*FileStorage).GetChats`. -/
def GetChats (s : FileStorage) : Slice := s.state.Chats

/-- Go `(*FileStorage).SaveChats`: the updated store, the world and the returned error. -/
def SaveChats (y : Codec) (w : World) (s : FileStorage) (chats : Slice) :
    FileStorage × World × Option String :=
  let s1 : FileStorage := { s with state := { s.state with Chats := chats } }
  (s1, save y w s1)

/-- Go `(*FileStorage).GetLastUpdate`: indexing a nil map yields the zero value. -/
def GetLastUpdate (s : FileStorage) (feed : String) : Time :=
  match s.state.Feeds with
  | none => Time.zero
  | some m => m.get feed

/-- Go `(*FileStorage).SaveLastUpdate`: assigning into a nil map panics. -/
def SaveLastUpdate (y : Codec) (w : World) (s : FileStorage) (feed : String) (t : Time) :
    Result (FileStorage × World × Option String) :=
  match s.state.Feeds with
  | none => Result.panic "assignment to entry in nil map"
  | some m =>
    let s1 : FileStorage := { s with state := { s.state with Feeds := some (m.set feed t) } }
    Result.ret (s1, save y w s1)

/-! ## A reference codec for the block-style fragment of YAML

`gopkg.in/yaml.v2` is not part of the repository. `yamlV2` below reproduces its
behaviour on the documents the store writes and the tests read: block mappings with
the keys `chats` and `feeds`, block sequences of integers, UTC timestamps, the empty
collections `[]` and `{}`, null values, unknown keys (ignored) and blank documents
(nothing decoded). Map entries are emitted in stored order and keys unquoted, which
agrees with the library for maps of at most one plain key. Integers are read as
unbounded decimals (no octal, no 64-bit range check), timestamps without a fraction
and without checking the day against the month, and quoted keys are not unquoted.
Documents outside the fragment are rejected. Theorems that quantify over every `Codec`
do not depend on it. -/

namespace yaml

/-- Decimal digits of `n`, most significant first, at least `width` of them. -/
def pad (width n : Nat) : List Char :=
  let ds := (Nat.toDigits 10 n)
  List.replicate (width - ds.length) '0' ++ ds

/-- The fraction of RFC3339Nano: nothing for zero, else `.` and the digits without
trailing zeros. -/
def fraction (nsec : Nat) : List Char :=
  let ds := ((pad 9 nsec).reverse.dropWhile (fun c => c = '0')).reverse
  if ds = [] then [] else '.' :: ds

/-- Go `t.Format(time.RFC3339Nano)` for a UTC time of the years 0001 to 9999. -/
def formatTime (t : Time) : List Char :=
  let s := t.sec.toNat
  let (y, m, d) := Time.civilFromDays (s / 86400)
  let r := s % 86400
  pad 4 y ++ '-' :: pad 2 m ++ '-' :: pad 2 d ++ 'T' :: pad 2 (r / 3600) ++ ':' ::
    pad 2 (r % 3600 / 60) ++ ':' :: pad 2 (r % 60) ++ fraction t.nsec ++ ['Z']

/-- Decimal text of an `int64`. -/
def formatInt (i : Int) : List Char :=
  match i with
  | Int.ofNat n => Nat.toDigits 10 n
  | Int.negSucc n => '-' :: Nat.toDigits 10 (n + 1)

/-- The `chats` field, block style; an empty or nil slice is `[]`. -/
def encodeChats (xs : List Int) : List Char :=
  match xs with
  | [] => "chats: []\n".data
  | _ => "chats:\n".data ++ (xs.map (fun i => '-' :: ' ' :: formatInt i ++ ['\n'])).flatten

/-- The `feeds` field, block style; an empty or nil map is `{}`. -/
def encodeFeeds (m : FeedMap) : List Char :=
  match m with
  | [] => "feeds: {}\n".data
  | _ => "feeds:\n".data ++
      (m.map (fun kv => ' ' :: ' ' :: kv.1.data ++ ':' :: ' ' :: formatTime kv.2 ++ ['\n'])).flatten

/-- The model of `yaml.Marshal` on a `State`. -/
def Marshal (v : StateVal) : Except String String :=
  Except.ok (String.mk (encodeChats (v.Chats.getD []) ++ encodeFeeds (v.Feeds.getD [])))

/-- Split a text at line feeds. -/
def splitLines : List Char → List (List Char)
  | [] => [[]]
  | c :: cs =>
    match splitLines cs with
    | [] => [[c]]
    | l :: ls => if c = '\n' then [] :: l :: ls else (c :: l) :: ls

/-- Drop spaces at both ends. -/
def trim (cs : List Char) : List Char :=
  ((cs.dropWhile (fun c => c = ' ')).reverse.dropWhile (fun c => c = ' ')).reverse

/-- Split `key: value` at the first colon that ends the line or precedes a space. -/
def splitKey : List Char → Option (List Char × List Char)
  | [] => none
  | c :: rest =>
    if c = ':' ∧ (rest = [] ∨ rest.head? = some ' ') then some ([], trim rest)
    else (splitKey rest).map (fun kv => (c :: kv.1, kv.2))

/-- A non-blank line of a block-style document. -/
inductive Line where
  | item (indent : Nat) (text : List Char)
  | pair (indent : Nat) (key value : List Char)
  | other (indent : Nat) (text : List Char)
deriving DecidableEq

/-- Classify a non-blank line. -/
def classify (l : List Char) : Line :=
  let indent := (l.takeWhile (fun c => c = ' ')).length
  let body := l.dropWhile (fun c => c = ' ')
  match body with
  | ['-'] => Line.item indent []
  | '-' :: ' ' :: rest => Line.item indent (trim rest)
  | _ =>
    match splitKey body with
    | some (k, v) => Line.pair indent k v
    | none => Line.other indent body

/-- Blank lines and comment lines carry no content. -/
def isBlank (l : List Char) : Bool :=
  match l.dropWhile (fun c => c = ' ') with
  | [] => true
  | c :: _ => c = '#'

/-- A top-level mapping entry with the lines nested under it. -/
structure Entry where
  key : List Char
  value : List Char
  children : List Line
deriving DecidableEq

/-- Group lines under the top-level keys they follow; the first component collects
lines that precede every key. -/
def group : List Line → List Line × List Entry
  | [] => ([], [])
  | l :: ls =>
    match l, group ls with
    | Line.pair 0 k v, (pending, es) => ([], { key := k, value := v, children := pending } :: es)
    | l, (pending, es) => (l :: pending, es)

/-- A run of decimal digits. -/
def parseNat (cs : List Char) : Option Nat :=
  if cs = [] then none
  else cs.foldl (fun acc c => acc.bind (fun n =>
    if c.isDigit then some (n * 10 + (c.toNat - '0'.toNat)) else none)) (some 0)

/-- A decimal integer. -/
def parseInt (cs : List Char) : Option Int :=
  match cs with
  | '-' :: rest => (parseNat rest).map (fun n => - (n : Int))
  | _ => (parseNat cs).map (fun n => (n : Int))

/-- A UTC timestamp `YYYY-MM-DDTHH:MM:SSZ`. -/
def parseTime (cs : List Char) : Option Time :=
  match cs with
  | [y1, y2, y3, y4, '-', m1, m2, '-', d1, d2, 'T', h1, h2, ':', n1, n2, ':', s1, s2, 'Z'] =>
    match parseNat [y1, y2, y3, y4], parseNat [m1, m2], parseNat [d1, d2],
        parseNat [h1, h2], parseNat [n1, n2], parseNat [s1, s2] with
    | some y, some m, some d, some hh, some mm, some ss =>
      if 1 ≤ y ∧ 1 ≤ m ∧ m ≤ 12 ∧ 1 ≤ d ∧ d ≤ 31 ∧ hh < 24 ∧ mm < 60 ∧ ss < 60
      then some (Time.Date y m d hh mm ss) else none
    | _, _, _, _, _, _ => none
  | _ => none

/-- The items of a block sequence of integers. -/
def decodeItems : List Line → Option (List Int)
  | [] => some []
  | Line.item _ t :: ls =>
    match parseInt t, decodeItems ls with
    | some i, some is => some (i :: is)
    | _, _ => none
  | _ :: _ => none

/-- The entries of a nested block mapping of timestamps, assigned into `m`. -/
def decodePairs (m : FeedMap) : List Line → Option FeedMap
  | [] => some m
  | Line.pair (_ + 1) k v :: ls =>
    match parseTime v with
    | some t => decodePairs (m.set (String.mk k) t) ls
    | none => none
  | _ :: _ => none

/-- The message for documents outside the modelled fragment. -/
def unsupported : String := "yaml: document outside the modelled fragment"

/-- Decode one top-level entry into the value. -/
def decodeEntry (v : StateVal) (e : Entry) : Except String StateVal :=
  if e.key = "chats".data then
    if e.value = "[]".data ∧ e.children = [] then Except.ok { v with Chats := some [] }
    else if e.value = [] ∧ e.children = [] then Except.ok { v with Chats := none }
    else if e.value = [] then
      match decodeItems e.children with
      | some is => Except.ok { v with Chats := some is }
      | none => Except.error unsupported
    else Except.error unsupported
  else if e.key = "feeds".data then
    if e.value = "{}".data ∧ e.children = [] then Except.ok { v with Feeds := some (v.Feeds.getD []) }
    else if e.value = [] ∧ e.children = [] then Except.ok { v with Feeds := none }
    else if e.value = [] then
      match decodePairs (v.Feeds.getD []) e.children with
      | some m => Except.ok { v with Feeds := some m }
      | none => Except.error unsupported
    else Except.error unsupported
  else Except.ok v

/-- Decode the entries in document order. -/
def decodeEntries (v : StateVal) : List Entry → Except String StateVal
  | [] => Except.ok v
  | e :: es =>
    match decodeEntry v e with
    | Except.ok v1 => decodeEntries v1 es
    | Except.error m => Except.error m

/-- The model of `yaml.Unmarshal(b, &state)`. -/
def Unmarshal (b : String) (v : StateVal) : Except String StateVal :=
  let ls := ((splitLines b.data).filter (fun l => !isBlank l)).map classify
  match ls with
  | [] => Except.ok v
  | Line.other _ (']' :: _) :: _ => Except.error "yaml: did not find expected node content"
  | _ =>
    match group ls with
    | ([], es) => decodeEntries v es
    | (_ :: _, _) => Except.error unsupported

end yaml

/-- The reference codec. -/
def yamlV2 : Codec := { Marshal := yaml.Marshal, Unmarshal := yaml.Unmarshal }


/-! ## Clients of the store -/

/-- A call on the store. -/
inductive Op where
  | getChats
  | saveChats (chats : Slice)
  | getLastUpdate (feed : String)
  | saveLastUpdate (feed : String) (t : Time)
deriving DecidableEq

/-- Perform one call; the values returned to the caller are dropped. -/
def step (y : Codec) (w : World) (s : FileStorage) : Op → Result (FileStorage × World)
  | Op.getChats => Result.ret (s, w)
  | Op.saveChats chats => Result.ret ((SaveChats y w s chats).1, (SaveChats y w s chats).2.1)
  | Op.getLastUpdate _ => Result.ret (s, w)
  | Op.saveLastUpdate feed t =>
    match SaveLastUpdate y w s feed t with
    | Result.ret r => Result.ret (r.1, r.2.1)
    | Result.panic msg => Result.panic msg

/-- Perform a sequence of calls, stopping at the first panic. -/
def run (y : Codec) (w : World) (s : FileStorage) : List Op → Result (FileStorage × World)
  | [] => Result.ret (s, w)
  | op :: ops =>
    match step y w s op with
    | Result.ret r => run y r.2 r.1 ops
    | Result.panic msg => Result.panic msg

/-- The state a store starts from in `NewFileStorage`. -/
def initVal : StateVal := { Chats := none, Feeds := some [] }

/-- A file system with no files where every write succeeds. -/
def emptyFS : FS := { entry := fun _ => FileEntry.absent, writeFault := fun _ _ => none }

/-- A file system whose only file is `file`, holding `content`; writes succeed. -/
def oneFileFS (file content : String) : FS :=
  { entry := fun p => if p = file then FileEntry.data content else FileEntry.absent,
    writeFault := fun _ _ => none }

/-- The content of the file in the test `valid state`: `feeds` has a null value and the
feed address is a third top-level key. -/
def validStateFile : String :=
  "chats:\n  - 1\nfeeds:\nhttp://example.com/feed: 2021-03-20T05:00:00Z\n"

/-- A file system whose only file is `file`, holding `content`, where every write fails
with `msg` and leaves each path as it was. -/
def lockedFS (file content msg : String) : FS :=
  { entry := fun p => if p = file then FileEntry.data content else FileEntry.absent,
    writeFault := fun p _ =>
      some (msg, if p = file then FileEntry.data content else FileEntry.absent) }

/-- A file system with no files where every write fails with `msg`, leaving the path as
it was. -/
def readOnlyFS (msg : String) : FS :=
  { entry := fun _ => FileEntry.absent, writeFault := fun _ _ => some (msg, FileEntry.absent) }

end storage

/-! ## The feed package -/

namespace feed

open storage

/-- Go `Item`: one entry of a feed, as the tests of the package build it. -/
structure Item where
  Title : String
  Image : String
  Published : Time
deriving DecidableEq

/-- Entries ordered by publication time. -/
def byPublished (a b : Item) : Prop := a.Published ≤ b.Published

instance : DecidableRel byPublished := fun a b => inferInstanceAs (Decidable (a.Published ≤ b.Published))

/-- Modelled from the spec: `rss.go`, which holds `Fetch`, is not among the sources (only
its test is). The watermark filter of the specification: `selectNew(entries, currentWatermark)`
keeps the entries with `published > currentWatermark`, orders them ascending by
`published`, and returns with them the next watermark, the maximum of the current
watermark and the publication times of all fetched entries. -/
def selectNew (entries : List Item) (currentWatermark : Time) : List Item × Time :=
  (List.insertionSort byPublished (entries.filter (fun e => e.Published.After currentWatermark)),
   entries.foldl (fun w e => if e.Published.After w then e.Published else w) currentWatermark)

end feed

/-! ## Lemmas -/

namespace storage

theorem Time.After_iff (t u : Time) :
    t.After u = true ↔ u.sec < t.sec ∨ (u.sec = t.sec ∧ u.nsec < t.nsec) := by
  simp [Time.After]

theorem Time.le_iff (t u : Time) :
    t ≤ u ↔ t.sec < u.sec ∨ (t.sec = u.sec ∧ t.nsec ≤ u.nsec) := by
  show ¬ (t.After u = true) ↔ _
  rw [Time.After_iff]
  omega

theorem Time.le_total (t u : Time) : t ≤ u ∨ u ≤ t := by
  rw [Time.le_iff, Time.le_iff]
  omega

theorem Time.le_trans {t u v : Time} (h1 : t ≤ u) (h2 : u ≤ v) : t ≤ v := by
  rw [Time.le_iff] at *
  omega

theorem FeedMap.get_set_self (m : FeedMap) (k : String) (v : Time) :
    FeedMap.get (FeedMap.set m k v) k = v := by
  induction m with
  | nil => simp [FeedMap.set, FeedMap.get]
  | cons kv rest ih =>
    obtain ⟨k1, v1⟩ := kv
    by_cases h : k1 = k
    · simp [FeedMap.set, FeedMap.get, h]
    · simp [FeedMap.set, FeedMap.get, h, ih]

theorem FeedMap.get_set_other (m : FeedMap) (k g : String) (v : Time) (hg : g ≠ k) :
    FeedMap.get (FeedMap.set m k v) g = FeedMap.get m g := by
  induction m with
  | nil => simp [FeedMap.set, FeedMap.get, Ne.symm hg]
  | cons kv rest ih =>
    obtain ⟨k1, v1⟩ := kv
    by_cases h : k1 = k
    · subst h
      simp [FeedMap.set, FeedMap.get, Ne.symm hg]
    · by_cases h2 : k1 = g
      · subst h2
        simp [FeedMap.set, FeedMap.get, h]
      · simp [FeedMap.set, FeedMap.get, h, h2, ih]

theorem save_heap (y : Codec) (w : World) (s : FileStorage) : (save y w s).1.heap = w.heap := by
  unfold save
  cases y.Marshal (s.state.val w.heap) with
  | error e => rfl
  | ok b =>
    simp only
    cases hw : WriteFile w.fs s.file b with
    | mk fs1 e => cases e <;> rfl

theorem FS.put_entry (fs : FS) (file : String) (e : FileEntry) :
    (fs.put file e).entry file = e := by
  simp [FS.put]

theorem save_ok (y : Codec) (w : World) (s : FileStorage) (h : (save y w s).2 = none) :
    ∃ b, y.Marshal (s.state.val w.heap) = Except.ok b ∧
      (save y w s).1.fs.entry s.file = FileEntry.data b := by
  unfold save at h ⊢
  cases hm : y.Marshal (s.state.val w.heap) with
  | error e => simp [hm] at h
  | ok b =>
    refine ⟨b, rfl, ?_⟩
    simp only [hm] at h ⊢
    unfold WriteFile at h ⊢
    cases hw : w.fs.writeFault s.file b with
    | some p => simp [hw] at h
    | none => simp [FS.put_entry]

/-- The state `NewFileStorage` builds from a decoded value. -/
theorem NewFileStorage_of_decoded (y : Codec) (w : World) (file c : String) (v : StateVal)
    (hfile : w.fs.entry file = FileEntry.data c)
    (hdec : y.Unmarshal c initVal = Except.ok v) :
    NewFileStorage y w file =
      (Except.ok { file := file,
                   state := if (State.ofVal w.heap v).1.Feeds = none
                     then { (State.ofVal w.heap v).1 with Feeds := some [] }
                     else (State.ofVal w.heap v).1 },
       { w with heap := (State.ofVal w.heap v).2 }) := by
  have hv : State.val w.heap { Chats := Slice.nil, Feeds := some [] } = initVal := rfl
  simp only [NewFileStorage, ReadFile, hfile, hv, hdec]

theorem NewFileStorage_feeds (y : Codec) (w w1 : World) (file : String) (s : FileStorage)
    (h : NewFileStorage y w file = (Except.ok s, w1)) : s.state.Feeds ≠ none := by
  have hv : State.val w.heap { Chats := Slice.nil, Feeds := some [] } = initVal := rfl
  cases he : w.fs.entry file with
  | absent =>
    simp only [NewFileStorage, ReadFile, he] at h
    cases hs : save y w { file := file, state := { Chats := Slice.nil, Feeds := some [] } } with
    | mk w2 e =>
      cases e with
      | some e => simp [hs] at h
      | none =>
        simp only [hs, Prod.mk.injEq, Except.ok.injEq] at h
        rw [← h.1]
        simp
  | unreadable msg => simp [NewFileStorage, ReadFile, he] at h
  | data c =>
    cases hd : y.Unmarshal c initVal with
    | error e => simp [NewFileStorage, ReadFile, he, hv, hd] at h
    | ok v =>
      rw [NewFileStorage_of_decoded y w file c v he hd] at h
      simp only [Prod.mk.injEq, Except.ok.injEq] at h
      rw [← h.1]
      by_cases hn : (State.ofVal w.heap v).1.Feeds = none
      · simp [hn]
      · simp [hn]

theorem step_feeds (y : Codec) (w : World) (s : FileStorage) (op : Op)
    (h : s.state.Feeds ≠ none) :
    ∃ s1 w1, step y w s op = Result.ret (s1, w1) ∧ s1.state.Feeds ≠ none := by
  cases op with
  | getChats => exact ⟨s, w, rfl, h⟩
  | getLastUpdate f => exact ⟨s, w, rfl, h⟩
  | saveChats chats => exact ⟨_, _, rfl, h⟩
  | saveLastUpdate f t =>
    cases hf : s.state.Feeds with
    | none => exact absurd hf h
    | some m =>
      refine ⟨{ s with state := { s.state with Feeds := some (m.set f t) } },
        (save y w { s with state := { s.state with Feeds := some (m.set f t) } }).1, ?_, by simp⟩
      simp only [step, SaveLastUpdate, hf]

theorem run_feeds (y : Codec) (ops : List Op) (w : World) (s : FileStorage)
    (h : s.state.Feeds ≠ none) :
    ∃ s1 w1, run y w s ops = Result.ret (s1, w1) ∧ s1.state.Feeds ≠ none := by
  induction ops generalizing w s with
  | nil => exact ⟨s, w, rfl, h⟩
  | cons op ops ih =>
    obtain ⟨s1, w1, hstep, h1⟩ := step_feeds y w s op h
    obtain ⟨s2, w2, hrun, h2⟩ := ih w1 s1 h1
    exact ⟨s2, w2, by simp only [run, hstep, hrun], h2⟩

theorem Slice.elems_setElem (h h1 : Heap) (sl : Slice) (i : Nat) (v : Int)
    (hset : Heap.setElem h sl i v = some h1) :
    sl.elems h1 = (sl.elems h).set i v := by
  cases sl with
  | nil => simp [Heap.setElem] at hset
  | ref a o n =>
    unfold Heap.setElem at hset
    by_cases hi : i < n
    · simp only [hi, if_true, Option.some.injEq] at hset
      subst hset
      by_cases ha : a < h.length
      · have hget : (h.set a ((h.getD a []).set (o + i) v)).getD a [] =
            (h.getD a []).set (o + i) v := by
          simp [List.getD_eq_getElem?_getD, List.getElem?_set, ha]
        simp only [Slice.elems, hget]
        rw [← List.set_drop, List.set_take]
      · have hlen : h.length ≤ a := Nat.le_of_not_lt ha
        have hnil : h.getD a [] = [] := List.getD_eq_default _ _ hlen
        rw [List.set_eq_of_length_le hlen]
        simp only [Slice.elems, hnil]
        simp
    · simp [hi] at hset

/-- The test `TestFileStorage_SaveChats`, replayed on the reference codec: the file
after saving `1, 2, 3` into a fresh store. -/
theorem SaveChats_file_content :
    (SaveChats yamlV2 ⟨[[1, 2, 3]], emptyFS⟩ ⟨"state.yml", ⟨Slice.nil, some []⟩⟩
      (Slice.ref 0 0 3)).2.1.fs.entry "state.yml" =
      FileEntry.data "chats:\n- 1\n- 2\n- 3\nfeeds: {}\n" := by
  rfl

end storage

/-! ## The store: round trips -/

namespace storage

/-- C1: if `SaveChats(X)` returns no error, the next `GetChats()` on the same store
returns exactly `X`: the same slice, hence the same elements in the same order and the
same length (for every store, every world and every `X`, the nil and empty slices
included). -/
theorem SaveChats_then_GetChats (y : Codec) (w : World) (s : FileStorage) (X : Slice)
    (h : (SaveChats y w s X).2.2 = none) :
    GetChats (SaveChats y w s X).1 = X ∧
    (GetChats (SaveChats y w s X).1).elems (SaveChats y w s X).2.1.heap = X.elems w.heap ∧
    (GetChats (SaveChats y w s X).1).length = X.length ∧
    ∃ b, y.Marshal { Chats := X.val w.heap, Feeds := s.state.Feeds } = Except.ok b ∧
      (SaveChats y w s X).2.1.fs.entry s.file = FileEntry.data b := by
  have hh : (SaveChats y w s X).2.1.heap = w.heap := save_heap y w _
  refine ⟨rfl, ?_, rfl, save_ok y w _ h⟩
  rw [hh]
  rfl

/-- C1 at a concrete input: the test `TestFileStorage_SaveChats` with chats `1, 2, 3`. -/
theorem SaveChats_then_GetChats_witness :
    (SaveChats yamlV2 ⟨[[1, 2, 3]], emptyFS⟩ ⟨"state.yml", ⟨Slice.nil, some []⟩⟩
      (Slice.ref 0 0 3)).2.2 = none ∧
    (GetChats (SaveChats yamlV2 ⟨[[1, 2, 3]], emptyFS⟩ ⟨"state.yml", ⟨Slice.nil, some []⟩⟩
      (Slice.ref 0 0 3)).1).elems
      (SaveChats yamlV2 ⟨[[1, 2, 3]], emptyFS⟩ ⟨"state.yml", ⟨Slice.nil, some []⟩⟩
        (Slice.ref 0 0 3)).2.1.heap = [1, 2, 3] :=
  ⟨by rfl, (SaveChats_then_GetChats yamlV2 ⟨[[1, 2, 3]], emptyFS⟩
    ⟨"state.yml", ⟨Slice.nil, some []⟩⟩ (Slice.ref 0 0 3) (by rfl)).2.1⟩

/-- C2: if `SaveLastUpdate(f, t)` returns no error, the next `GetLastUpdate(f)` on the
same store returns exactly `t`. -/
theorem SaveLastUpdate_then_GetLastUpdate (y : Codec) (w w1 : World) (s s1 : FileStorage)
    (f : String) (t : Time)
    (h : SaveLastUpdate y w s f t = Result.ret (s1, w1, none)) :
    GetLastUpdate s1 f = t := by
  unfold SaveLastUpdate at h
  cases hf : s.state.Feeds with
  | none => simp [hf] at h
  | some m =>
    simp only [hf, Result.ret.injEq, Prod.mk.injEq] at h
    rw [← h.1]
    simp [GetLastUpdate, FeedMap.get_set_self]

/-- C2 at a concrete input: the first save of `TestFileStorage_SaveLastUpdate`. -/
theorem SaveLastUpdate_then_GetLastUpdate_witness :
    SaveLastUpdate yamlV2 ⟨[], emptyFS⟩ ⟨"state.yml", ⟨Slice.nil, some []⟩⟩ "feed"
        (Time.Date 2000 1 1 0 0 0) =
      Result.ret (⟨"state.yml", ⟨Slice.nil, some [("feed", Time.Date 2000 1 1 0 0 0)]⟩⟩,
        ⟨[], emptyFS.put "state.yml"
          (FileEntry.data "chats: []\nfeeds:\n  feed: 2000-01-01T00:00:00Z\n")⟩, none) ∧
    GetLastUpdate ⟨"state.yml", ⟨Slice.nil, some [("feed", Time.Date 2000 1 1 0 0 0)]⟩⟩ "feed" =
      Time.Date 2000 1 1 0 0 0 :=
  ⟨by rfl, SaveLastUpdate_then_GetLastUpdate yamlV2 ⟨[], emptyFS⟩
    ⟨[], emptyFS.put "state.yml" (FileEntry.data "chats: []\nfeeds:\n  feed: 2000-01-01T00:00:00Z\n")⟩
    ⟨"state.yml", ⟨Slice.nil, some []⟩⟩
    ⟨"state.yml", ⟨Slice.nil, some [("feed", Time.Date 2000 1 1 0 0 0)]⟩⟩
    "feed" (Time.Date 2000 1 1 0 0 0) (by rfl)⟩

/-- C3, refuted as stated: a store whose watermark for `feed` is 2000-01-01T00:00:01Z
accepts `SaveLastUpdate("feed", 2000-01-01T00:00:00Z)` without error, and afterwards
`GetLastUpdate("feed")` is the earlier time: the watermark moved backward. -/
theorem SaveLastUpdate_regresses :
    ∃ s1 w1,
      SaveLastUpdate yamlV2 ⟨[], emptyFS⟩
        ⟨"state.yml", ⟨Slice.nil, some [("feed", Time.Date 2000 1 1 0 0 1)]⟩⟩ "feed"
        (Time.Date 2000 1 1 0 0 0) = Result.ret (s1, w1, none) ∧
      GetLastUpdate ⟨"state.yml", ⟨Slice.nil, some [("feed", Time.Date 2000 1 1 0 0 1)]⟩⟩ "feed" =
        Time.Date 2000 1 1 0 0 1 ∧
      GetLastUpdate s1 "feed" = Time.Date 2000 1 1 0 0 0 ∧
      ¬ (GetLastUpdate ⟨"state.yml", ⟨Slice.nil, some [("feed", Time.Date 2000 1 1 0 0 1)]⟩⟩
          "feed" ≤ GetLastUpdate s1 "feed") :=
  ⟨_, _, by rfl, by rfl, by rfl, by decide⟩

/-- C3, amended: `SaveLastUpdate(f, t)` overwrites the watermark of `f` with `t` whatever
the earlier value and whether or not the write succeeds, and leaves the watermark of
every other feed as it was; so the watermark of `f` after the call is at least its value
before the call exactly when `t` is. -/
theorem SaveLastUpdate_overwrites (y : Codec) (w w1 : World) (s s1 : FileStorage)
    (f : String) (t : Time) (e : Option String)
    (h : SaveLastUpdate y w s f t = Result.ret (s1, w1, e)) :
    GetLastUpdate s1 f = t ∧
    (GetLastUpdate s f ≤ GetLastUpdate s1 f ↔ GetLastUpdate s f ≤ t) ∧
    ∀ g, g ≠ f → GetLastUpdate s1 g = GetLastUpdate s g := by
  unfold SaveLastUpdate at h
  cases hf : s.state.Feeds with
  | none => simp [hf] at h
  | some m =>
    simp only [hf, Result.ret.injEq, Prod.mk.injEq] at h
    have h1 : GetLastUpdate s1 f = t := by
      rw [← h.1]
      simp [GetLastUpdate, FeedMap.get_set_self]
    refine ⟨h1, by rw [h1], ?_⟩
    intro g hg
    rw [← h.1]
    simp [GetLastUpdate, hf, FeedMap.get_set_other _ _ _ _ hg]

/-- C3 amended, at a concrete input: the second save of `TestFileStorage_SaveLastUpdate`
advances the watermark by one second. -/
theorem SaveLastUpdate_overwrites_witness :
    SaveLastUpdate yamlV2 ⟨[], emptyFS⟩
        ⟨"state.yml", ⟨Slice.nil, some [("feed", Time.Date 2000 1 1 0 0 0)]⟩⟩ "feed"
        (Time.Date 2000 1 1 0 0 1) =
      Result.ret (⟨"state.yml", ⟨Slice.nil, some [("feed", Time.Date 2000 1 1 0 0 1)]⟩⟩,
        ⟨[], emptyFS.put "state.yml"
          (FileEntry.data "chats: []\nfeeds:\n  feed: 2000-01-01T00:00:01Z\n")⟩, none) ∧
    GetLastUpdate ⟨"state.yml", ⟨Slice.nil, some [("feed", Time.Date 2000 1 1 0 0 1)]⟩⟩ "feed" =
      Time.Date 2000 1 1 0 0 1 :=
  ⟨by rfl, (SaveLastUpdate_overwrites yamlV2 ⟨[], emptyFS⟩
    ⟨[], emptyFS.put "state.yml" (FileEntry.data "chats: []\nfeeds:\n  feed: 2000-01-01T00:00:01Z\n")⟩
    ⟨"state.yml", ⟨Slice.nil, some [("feed", Time.Date 2000 1 1 0 0 0)]⟩⟩
    ⟨"state.yml", ⟨Slice.nil, some [("feed", Time.Date 2000 1 1 0 0 1)]⟩⟩
    "feed" (Time.Date 2000 1 1 0 0 1) none (by rfl)).1⟩

end storage

/-! ## The store: opening -/

namespace storage

/-- C6: when the file exists and the decoder rejects its content with message `m`,
`NewFileStorage` returns no store but the error `decode data: m`, and the world (the
file included) is as before the call. -/
theorem NewFileStorage_decode_error (y : Codec) (w : World) (file c m : String)
    (hfile : w.fs.entry file = FileEntry.data c)
    (hdec : y.Unmarshal c initVal = Except.error m) :
    (NewFileStorage y w file).1 = Except.error ("decode data: " ++ m) ∧
    (NewFileStorage y w file).2 = w := by
  have hv : State.val w.heap { Chats := Slice.nil, Feeds := some [] } = initVal := rfl
  simp [NewFileStorage, ReadFile, hfile, hv, hdec, Wrap]

/-- C6 at the input of the test `invalid state`: the content `]`. -/
theorem NewFileStorage_decode_error_witness :
    (NewFileStorage yamlV2 ⟨[], oneFileFS "state.yml" "]"⟩ "state.yml").1 =
      Except.error "decode data: yaml: did not find expected node content" ∧
    (oneFileFS "state.yml" "]").entry "state.yml" = FileEntry.data "]" :=
  ⟨(NewFileStorage_decode_error yamlV2 ⟨[], oneFileFS "state.yml" "]"⟩ "state.yml" "]"
      "yaml: did not find expected node content" (by rfl) (by rfl)).1, by rfl⟩

/-- C7: when the backing file exists (readable or not), `NewFileStorage` leaves the file
system as it was, whatever the content and whether or not decoding succeeds. In
particular, for a file with empty content (which the decoder accepts without decoding
anything), the call succeeds, the store has no chats and the zero time for every feed,
and the file is still empty. -/
theorem NewFileStorage_existing_untouched (y : Codec) (w : World) (file : String)
    (hfile : w.fs.entry file ≠ FileEntry.absent) :
    (NewFileStorage y w file).2.fs = w.fs ∧
    (w.fs.entry file = FileEntry.data "" → y.Unmarshal "" initVal = Except.ok initVal →
      ∃ s, (NewFileStorage y w file).1 = Except.ok s ∧
        (GetChats s).elems (NewFileStorage y w file).2.heap = [] ∧
        (∀ f, GetLastUpdate s f = Time.zero) ∧
        (NewFileStorage y w file).2.fs.entry file = FileEntry.data "") := by
  have hv : State.val w.heap { Chats := Slice.nil, Feeds := some [] } = initVal := rfl
  constructor
  · cases he : w.fs.entry file with
    | absent => exact absurd he hfile
    | unreadable msg => simp only [NewFileStorage, ReadFile, he]
    | data c =>
      simp only [NewFileStorage, ReadFile, he, hv]
      cases y.Unmarshal c initVal <;> rfl
  · intro hempty hblank
    rw [NewFileStorage_of_decoded y w file "" initVal hempty hblank]
    exact ⟨{ file := file, state := { Chats := Slice.nil, Feeds := some [] } }, rfl, rfl,
      fun _ => rfl, hempty⟩

/-- C7 at the input of the test `empty state`: a file with empty content. -/
theorem NewFileStorage_existing_untouched_witness :
    (NewFileStorage yamlV2 ⟨[], oneFileFS "state.yml" ""⟩ "state.yml").2.fs =
      oneFileFS "state.yml" "" ∧
    ∃ s, (NewFileStorage yamlV2 ⟨[], oneFileFS "state.yml" ""⟩ "state.yml").1 = Except.ok s ∧
      (GetChats s).elems (NewFileStorage yamlV2 ⟨[], oneFileFS "state.yml" ""⟩ "state.yml").2.heap
        = [] ∧
      (∀ f, GetLastUpdate s f = Time.zero) ∧
      (NewFileStorage yamlV2 ⟨[], oneFileFS "state.yml" ""⟩ "state.yml").2.fs.entry "state.yml" =
        FileEntry.data "" :=
  ⟨(NewFileStorage_existing_untouched yamlV2 ⟨[], oneFileFS "state.yml" ""⟩ "state.yml"
      (by decide)).1,
   (NewFileStorage_existing_untouched yamlV2 ⟨[], oneFileFS "state.yml" ""⟩ "state.yml"
      (by decide)).2 (by rfl) (by rfl)⟩

end storage

/-! ## The store: failed writes and the watermark map -/

namespace storage

/-- C8, refuted as stated: a failed write does not always leave memory and file apart.
The file already holds the encoding of the chats `1, 2, 3` and every write is refused,
the file staying as it was; `SaveChats` of `1, 2, 3` returns the write error, `GetChats`
returns the slice, and the file holds exactly the encoding of the in-memory state. -/
theorem failed_write_may_agree_with_file :
    (SaveChats yamlV2 ⟨[[1, 2, 3]],
        lockedFS "state.yml" "chats:\n- 1\n- 2\n- 3\nfeeds: {}\n" "permission denied"⟩
        ⟨"state.yml", ⟨Slice.ref 0 0 3, some []⟩⟩ (Slice.ref 0 0 3)).2.2 =
      some "write data to file: permission denied" ∧
    GetChats (SaveChats yamlV2 ⟨[[1, 2, 3]],
        lockedFS "state.yml" "chats:\n- 1\n- 2\n- 3\nfeeds: {}\n" "permission denied"⟩
        ⟨"state.yml", ⟨Slice.ref 0 0 3, some []⟩⟩ (Slice.ref 0 0 3)).1 = Slice.ref 0 0 3 ∧
    yamlV2.Marshal ((SaveChats yamlV2 ⟨[[1, 2, 3]],
        lockedFS "state.yml" "chats:\n- 1\n- 2\n- 3\nfeeds: {}\n" "permission denied"⟩
        ⟨"state.yml", ⟨Slice.ref 0 0 3, some []⟩⟩ (Slice.ref 0 0 3)).1.state.val
        (SaveChats yamlV2 ⟨[[1, 2, 3]],
          lockedFS "state.yml" "chats:\n- 1\n- 2\n- 3\nfeeds: {}\n" "permission denied"⟩
          ⟨"state.yml", ⟨Slice.ref 0 0 3, some []⟩⟩ (Slice.ref 0 0 3)).2.1.heap) =
      Except.ok "chats:\n- 1\n- 2\n- 3\nfeeds: {}\n" ∧
    (SaveChats yamlV2 ⟨[[1, 2, 3]],
        lockedFS "state.yml" "chats:\n- 1\n- 2\n- 3\nfeeds: {}\n" "permission denied"⟩
        ⟨"state.yml", ⟨Slice.ref 0 0 3, some []⟩⟩ (Slice.ref 0 0 3)).2.1.fs.entry "state.yml" =
      FileEntry.data "chats:\n- 1\n- 2\n- 3\nfeeds: {}\n" :=
  ⟨by rfl, by rfl, by rfl, by rfl⟩

/-- C8, amended: a failed commit is reported and not rolled back. For every store and
every `X`, if the file write inside `SaveChats(X)` fails with `msg`, `SaveChats` returns
the error `write data to file: msg` and a subsequent `GetChats()` returns `X` all the
same; the file holds what the failed write left there, so it holds the encoding of the
in-memory state exactly when the failed write left that very encoding, and differs from
it otherwise. Likewise, if the write inside `SaveLastUpdate(f, t)` fails, the error is
returned and `GetLastUpdate(f)` returns `t`. Each half has only its own conditions. -/
theorem failed_write_not_rolled_back (y : Codec) (w : World) (s : FileStorage) :
    (∀ (X : Slice) (b msg : String) (left : FileEntry),
      y.Marshal { Chats := X.val w.heap, Feeds := s.state.Feeds } = Except.ok b →
      w.fs.writeFault s.file b = some (msg, left) →
      (SaveChats y w s X).2.2 = some ("write data to file: " ++ msg) ∧
      GetChats (SaveChats y w s X).1 = X ∧
      (GetChats (SaveChats y w s X).1).elems (SaveChats y w s X).2.1.heap = X.elems w.heap ∧
      y.Marshal ((SaveChats y w s X).1.state.val (SaveChats y w s X).2.1.heap) = Except.ok b ∧
      (SaveChats y w s X).2.1.fs.entry s.file = left ∧
      ((SaveChats y w s X).2.1.fs.entry s.file = FileEntry.data b ↔ left = FileEntry.data b)) ∧
    (∀ (f : String) (t : Time) (m : FeedMap) (b msg : String) (left : FileEntry),
      s.state.Feeds = some m →
      y.Marshal { Chats := s.state.Chats.val w.heap, Feeds := some (m.set f t) } = Except.ok b →
      w.fs.writeFault s.file b = some (msg, left) →
      ∃ s1 w1, SaveLastUpdate y w s f t =
          Result.ret (s1, w1, some ("write data to file: " ++ msg)) ∧
        GetLastUpdate s1 f = t ∧
        y.Marshal (s1.state.val w1.heap) = Except.ok b ∧
        w1.fs.entry s.file = left ∧
        (w1.fs.entry s.file = FileEntry.data b ↔ left = FileEntry.data b)) := by
  constructor
  · intro X b msg left hmar hfail
    have hv : State.val w.heap { Chats := X, Feeds := s.state.Feeds } =
        { Chats := X.val w.heap, Feeds := s.state.Feeds } := rfl
    have hentry : (SaveChats y w s X).2.1.fs.entry s.file = left := by
      simp [SaveChats, save, hv, hmar, WriteFile, hfail, FS.put_entry]
    have hheap : (SaveChats y w s X).2.1.heap = w.heap := save_heap y w _
    refine ⟨?_, rfl, ?_, ?_, hentry, by rw [hentry]⟩
    · simp [SaveChats, save, hv, hmar, WriteFile, hfail, Wrap]
    · rw [hheap]
      rfl
    · rw [hheap]
      exact hmar
  · intro f t m b msg left hfeeds hmar hfail
    have hv : State.val w.heap { Chats := s.state.Chats, Feeds := some (m.set f t) } =
        { Chats := s.state.Chats.val w.heap, Feeds := some (m.set f t) } := rfl
    refine ⟨{ s with state := { s.state with Feeds := some (m.set f t) } },
      { w with fs := w.fs.put s.file left }, ?_, ?_, hmar, ?_, ?_⟩
    · simp [SaveLastUpdate, hfeeds, save, hv, hmar, WriteFile, hfail, Wrap]
    · simp [GetLastUpdate, FeedMap.get_set_self]
    · simp [FS.put_entry]
    · simp [FS.put_entry]

/-- C8 amended, at a concrete input: a file system with no files that refuses every
write with `permission denied` and leaves the path as it was. -/
theorem failed_write_not_rolled_back_witness :
    ((SaveChats yamlV2 ⟨[[1, 2, 3]], readOnlyFS "permission denied"⟩
        ⟨"state.yml", ⟨Slice.nil, some []⟩⟩ (Slice.ref 0 0 3)).2.2 =
        some ("write data to file: " ++ "permission denied") ∧
      GetChats (SaveChats yamlV2 ⟨[[1, 2, 3]], readOnlyFS "permission denied"⟩
        ⟨"state.yml", ⟨Slice.nil, some []⟩⟩ (Slice.ref 0 0 3)).1 = Slice.ref 0 0 3 ∧
      (SaveChats yamlV2 ⟨[[1, 2, 3]], readOnlyFS "permission denied"⟩
        ⟨"state.yml", ⟨Slice.nil, some []⟩⟩ (Slice.ref 0 0 3)).2.1.fs.entry "state.yml" =
        FileEntry.absent) ∧
    ∃ s1 w1, SaveLastUpdate yamlV2 ⟨[[1, 2, 3]], readOnlyFS "permission denied"⟩
        ⟨"state.yml", ⟨Slice.nil, some []⟩⟩ "feed" (Time.Date 2000 1 1 0 0 0) =
        Result.ret (s1, w1, some ("write data to file: " ++ "permission denied")) ∧
      GetLastUpdate s1 "feed" = Time.Date 2000 1 1 0 0 0 ∧
      w1.fs.entry "state.yml" = FileEntry.absent :=
  ⟨match (failed_write_not_rolled_back yamlV2 ⟨[[1, 2, 3]], readOnlyFS "permission denied"⟩
      ⟨"state.yml", ⟨Slice.nil, some []⟩⟩).1 (Slice.ref 0 0 3)
      "chats:\n- 1\n- 2\n- 3\nfeeds: {}\n" "permission denied" FileEntry.absent
      (by rfl) (by rfl) with
    | ⟨h1, h2, _, _, h3, _⟩ => ⟨h1, h2, h3⟩,
   match (failed_write_not_rolled_back yamlV2 ⟨[[1, 2, 3]], readOnlyFS "permission denied"⟩
      ⟨"state.yml", ⟨Slice.nil, some []⟩⟩).2 "feed" (Time.Date 2000 1 1 0 0 0) []
      "chats: []\nfeeds:\n  feed: 2000-01-01T00:00:00Z\n" "permission denied"
      FileEntry.absent (by rfl) (by rfl) (by rfl) with
    | ⟨s1, w1, h1, h2, _, h3, _⟩ => ⟨s1, w1, h1, h2, h3⟩⟩

end storage

namespace storage

/-- C10: every store returned by a successful `NewFileStorage` has a non-nil watermark
map, on every branch (file absent, blank, `feeds` missing, null or populated: whatever
the decoder yields), and every sequence of calls on such a store runs to its end without
the nil-map panic of `SaveLastUpdate`, the map being non-nil after each of them. -/
theorem NewFileStorage_feeds_never_nil (y : Codec) (w w1 : World) (file : String)
    (s : FileStorage) (h : NewFileStorage y w file = (Except.ok s, w1)) :
    s.state.Feeds ≠ none ∧
    (∀ ops, ∃ s2 w2, run y w1 s ops = Result.ret (s2, w2) ∧ s2.state.Feeds ≠ none) ∧
    ∀ ops f t, ∃ r, (∃ s2 w2, run y w1 s ops = Result.ret (s2, w2) ∧
      SaveLastUpdate y w2 s2 f t = Result.ret r) := by
  have h0 := NewFileStorage_feeds y w w1 file s h
  refine ⟨h0, fun ops => run_feeds y ops w1 s h0, ?_⟩
  intro ops f t
  obtain ⟨s2, w2, hrun, h2⟩ := run_feeds y ops w1 s h0
  cases hf : s2.state.Feeds with
  | none => exact absurd hf h2
  | some m =>
    exact ⟨({ s2 with state := { s2.state with Feeds := some (m.set f t) } },
      save y w2 { s2 with state := { s2.state with Feeds := some (m.set f t) } }),
      s2, w2, hrun, by simp only [SaveLastUpdate, hf]⟩

/-- C10 at the file of the test `valid state`: the decoder yields a nil map for the null
`feeds`, and the store returned by `NewFileStorage` has the empty map instead. -/
theorem NewFileStorage_feeds_never_nil_witness :
    yamlV2.Unmarshal validStateFile initVal = Except.ok { Chats := some [1], Feeds := none } ∧
    NewFileStorage yamlV2 ⟨[], oneFileFS "state.yml" validStateFile⟩ "state.yml" =
      (Except.ok ⟨"state.yml", ⟨Slice.ref 0 0 1, some []⟩⟩,
        ⟨[[1]], oneFileFS "state.yml" validStateFile⟩) ∧
    (⟨"state.yml", ⟨Slice.ref 0 0 1, some []⟩⟩ : FileStorage).state.Feeds ≠ none :=
  ⟨by rfl, by rfl,
    (NewFileStorage_feeds_never_nil yamlV2 ⟨[], oneFileFS "state.yml" validStateFile⟩
      ⟨[[1]], oneFileFS "state.yml" validStateFile⟩ "state.yml"
      ⟨"state.yml", ⟨Slice.ref 0 0 1, some []⟩⟩ (by rfl)).1⟩

end storage

/-! ## The store: first opening and aliasing -/

namespace storage

/-- C5: when no file exists at the path and the write succeeds, `NewFileStorage` returns
a store with empty state (no chats, the zero time for every feed) and the file then
holds the encoding of the empty state, `chats: []` and `feeds: {}` on two lines; a
second `NewFileStorage` on the same path succeeds, yields a store with the same empty
state and leaves the file as it is. The two facts about the YAML library that this rests
on are hypotheses: how it encodes the empty state, and that it decodes that text to
empty collections. -/
theorem NewFileStorage_absent_then_reopen (y : Codec) (w : World) (file : String)
    (v : StateVal)
    (habs : w.fs.entry file = FileEntry.absent)
    (henc : y.Marshal initVal = Except.ok "chats: []\nfeeds: {}\n")
    (hwrite : w.fs.writeFault file "chats: []\nfeeds: {}\n" = none)
    (hdec : y.Unmarshal "chats: []\nfeeds: {}\n" initVal = Except.ok v)
    (hchats : v.Chats.getD [] = [])
    (hfeeds : v.Feeds.getD [] = []) :
    ∃ s1 s2,
      (NewFileStorage y w file).1 = Except.ok s1 ∧
      (GetChats s1).elems (NewFileStorage y w file).2.heap = [] ∧
      (∀ f, GetLastUpdate s1 f = Time.zero) ∧
      (NewFileStorage y w file).2.fs.entry file = FileEntry.data "chats: []\nfeeds: {}\n" ∧
      (NewFileStorage y (NewFileStorage y w file).2 file).1 = Except.ok s2 ∧
      (GetChats s2).elems (NewFileStorage y (NewFileStorage y w file).2 file).2.heap = [] ∧
      (∀ f, GetLastUpdate s2 f = Time.zero) ∧
      s2.state.Feeds = s1.state.Feeds ∧
      (NewFileStorage y (NewFileStorage y w file).2 file).2.fs =
        (NewFileStorage y w file).2.fs := by
  have hv : State.val w.heap { Chats := Slice.nil, Feeds := some [] } = initVal := rfl
  have h1 : NewFileStorage y w file =
      (Except.ok { file := file, state := { Chats := Slice.nil, Feeds := some [] } },
       { w with fs := w.fs.put file (FileEntry.data "chats: []\nfeeds: {}\n") }) := by
    simp only [NewFileStorage, ReadFile, habs, save, hv, henc, WriteFile, hwrite]
  have hentry : (NewFileStorage y w file).2.fs.entry file =
      FileEntry.data "chats: []\nfeeds: {}\n" := by
    rw [h1]
    exact FS.put_entry _ _ _
  have h2 := NewFileStorage_of_decoded y (NewFileStorage y w file).2 file _ v hentry hdec
  have hf2 : (if (State.ofVal (NewFileStorage y w file).2.heap v).1.Feeds = none
      then { (State.ofVal (NewFileStorage y w file).2.heap v).1 with Feeds := some [] }
      else (State.ofVal (NewFileStorage y w file).2.heap v).1).Feeds = some [] := by
    cases hvf : v.Feeds with
    | none => cases hvc : v.Chats <;> simp [State.ofVal, hvf, hvc]
    | some m =>
      have hm : m = [] := by simpa [hvf] using hfeeds
      subst hm
      cases hvc : v.Chats <;> simp [State.ofVal, hvf, hvc]
  refine ⟨{ file := file, state := { Chats := Slice.nil, Feeds := some [] } }, _, ?_, ?_, ?_,
    hentry, congrArg Prod.fst h2, ?_, ?_, hf2, ?_⟩
  · rw [h1]
  · rfl
  · intro f
    rfl
  · rw [h2]
    cases hvc : v.Chats with
    | none => cases hvf : v.Feeds <;> simp [State.ofVal, hvc, hvf, GetChats, Slice.elems]
    | some xs =>
      have hx : xs = [] := by simpa [hvc] using hchats
      subst hx
      cases hvf : v.Feeds <;>
        simp [State.ofVal, hvc, hvf, GetChats, Slice.elems, Heap.alloc]
  · intro f
    simp only [GetLastUpdate, hf2]
    rfl
  · rw [h2]

/-- C5 at the input of the test `no state`, with the reference codec. -/
theorem NewFileStorage_absent_then_reopen_witness :
    NewFileStorage yamlV2 ⟨[], emptyFS⟩ "state.yml" =
      (Except.ok ⟨"state.yml", ⟨Slice.nil, some []⟩⟩,
        ⟨[], emptyFS.put "state.yml" (FileEntry.data "chats: []\nfeeds: {}\n")⟩) ∧
    (NewFileStorage yamlV2 (NewFileStorage yamlV2 ⟨[], emptyFS⟩ "state.yml").2 "state.yml").1 =
      Except.ok ⟨"state.yml", ⟨Slice.ref 0 0 0, some []⟩⟩ ∧
    ∃ s1 s2,
      (NewFileStorage yamlV2 ⟨[], emptyFS⟩ "state.yml").1 = Except.ok s1 ∧
      (NewFileStorage yamlV2 (NewFileStorage yamlV2 ⟨[], emptyFS⟩ "state.yml").2
        "state.yml").1 = Except.ok s2 ∧
      s2.state.Feeds = s1.state.Feeds :=
  ⟨by rfl, by rfl,
    match NewFileStorage_absent_then_reopen yamlV2 ⟨[], emptyFS⟩ "state.yml"
      { Chats := some [], Feeds := some [] } (by rfl) (by rfl) (by rfl) (by rfl) (by rfl)
      (by rfl) with
    | ⟨s1, s2, h1, _, _, _, h2, _, _, h3, _⟩ => ⟨s1, s2, h1, h2, h3⟩⟩

/-- C9, refuted as stated: after `SaveChats` of a slice over the array `1, 2, 3`,
`GetChats()` returns a slice over that same array; writing 99 into element 0 of the
returned slice makes a later `GetChats()` denote `99, 2, 3` instead of `1, 2, 3`. The
same write is a write through the slice that was passed to `SaveChats`. -/
theorem GetChats_is_not_a_copy :
    GetChats (SaveChats yamlV2 ⟨[[1, 2, 3]], emptyFS⟩ ⟨"state.yml", ⟨Slice.nil, some []⟩⟩
      (Slice.ref 0 0 3)).1 = Slice.ref 0 0 3 ∧
    (GetChats (SaveChats yamlV2 ⟨[[1, 2, 3]], emptyFS⟩ ⟨"state.yml", ⟨Slice.nil, some []⟩⟩
      (Slice.ref 0 0 3)).1).elems [[1, 2, 3]] = [1, 2, 3] ∧
    Heap.setElem [[1, 2, 3]]
      (GetChats (SaveChats yamlV2 ⟨[[1, 2, 3]], emptyFS⟩ ⟨"state.yml", ⟨Slice.nil, some []⟩⟩
        (Slice.ref 0 0 3)).1) 0 99 = some [[99, 2, 3]] ∧
    (GetChats (SaveChats yamlV2 ⟨[[1, 2, 3]], emptyFS⟩ ⟨"state.yml", ⟨Slice.nil, some []⟩⟩
      (Slice.ref 0 0 3)).1).elems [[99, 2, 3]] = [99, 2, 3] ∧
    ¬ ((GetChats (SaveChats yamlV2 ⟨[[1, 2, 3]], emptyFS⟩ ⟨"state.yml", ⟨Slice.nil, some []⟩⟩
      (Slice.ref 0 0 3)).1).elems [[99, 2, 3]] = [1, 2, 3]) :=
  ⟨by rfl, by rfl, by rfl, by rfl, by decide⟩

/-- C9, amended: `GetChats` returns the store's own slice, which is the very slice last
passed to `SaveChats` and shares its backing array. Overwriting element `i` of the
returned slice with `v` (possible exactly when `i` is below its length) leaves the
store's slice header as it is and makes a later `GetChats()` denote the former list
with element `i` replaced by `v`. -/
theorem GetChats_shares_backing_array (s : FileStorage) (h h1 : Heap) (i : Nat) (v : Int)
    (hset : Heap.setElem h (GetChats s) i v = some h1) :
    i < (GetChats s).length ∧
    (GetChats s).elems h1 = ((GetChats s).elems h).set i v ∧
    ∀ (y : Codec) (w : World) (X : Slice), GetChats (SaveChats y w s X).1 = X := by
  refine ⟨?_, Slice.elems_setElem h h1 _ i v hset, fun _ _ _ => rfl⟩
  cases hc : GetChats s with
  | nil => simp [hc, Heap.setElem] at hset
  | ref a o n =>
    by_cases hi : i < n
    · exact hi
    · simp [hc, Heap.setElem, hi] at hset

/-- C9 amended, at a concrete input: the store over `1, 2, 3` and a write of 99 into
element 0. -/
theorem GetChats_shares_backing_array_witness :
    Heap.setElem [[1, 2, 3]] (GetChats ⟨"state.yml", ⟨Slice.ref 0 0 3, some []⟩⟩) 0 99 =
      some [[99, 2, 3]] ∧
    (GetChats ⟨"state.yml", ⟨Slice.ref 0 0 3, some []⟩⟩).elems [[99, 2, 3]] =
      ((GetChats ⟨"state.yml", ⟨Slice.ref 0 0 3, some []⟩⟩).elems [[1, 2, 3]]).set 0 99 :=
  ⟨by rfl, (GetChats_shares_backing_array ⟨"state.yml", ⟨Slice.ref 0 0 3, some []⟩⟩
    [[1, 2, 3]] [[99, 2, 3]] 0 99 (by rfl)).2.1⟩

end storage

/-! ## The watermark filter -/

namespace feed

open storage

/-- C4: for every sequence of fetched entries `E` and every watermark `W`, the entries
returned are exactly the entries of `E` published strictly after `W` (as a multiset, so
with their multiplicities; an entry published exactly at `W` is excluded), in ascending
order of publication time. At the inputs of the tests: the entry published
2020-01-01T15:00:00Z is returned for `W` = 2020-01-01T10:00:00Z and nothing is returned
for `W` = 2021-01-01T10:00:00Z. -/
theorem selectNew_exactly_newer_sorted (E : List Item) (W : Time) :
    List.Perm (selectNew E W).1 (E.filter (fun e => e.Published.After W)) ∧
    (∀ e, e ∈ (selectNew E W).1 ↔ e ∈ E ∧ e.Published.After W = true) ∧
    (∀ e, e.Published = W → e ∉ (selectNew E W).1) ∧
    List.Sorted byPublished (selectNew E W).1 ∧
    (selectNew [⟨"Item Title", "https://example.com/image.png", Time.Date 2020 1 1 15 0 0⟩]
      (Time.Date 2020 1 1 10 0 0)).1 =
      [⟨"Item Title", "https://example.com/image.png", Time.Date 2020 1 1 15 0 0⟩] ∧
    (selectNew [⟨"Item Title", "https://example.com/image.png", Time.Date 2020 1 1 15 0 0⟩]
      (Time.Date 2021 1 1 10 0 0)).1 = [] := by
  haveI : IsTotal Item byPublished := ⟨fun a b => Time.le_total a.Published b.Published⟩
  haveI : IsTrans Item byPublished := ⟨fun _ _ _ h1 h2 => Time.le_trans h1 h2⟩
  have hperm : List.Perm (selectNew E W).1 (E.filter (fun e => e.Published.After W)) :=
    List.perm_insertionSort _ _
  have hmem : ∀ e, e ∈ (selectNew E W).1 ↔ e ∈ E ∧ e.Published.After W = true := by
    intro e
    rw [hperm.mem_iff, List.mem_filter]
  refine ⟨hperm, hmem, ?_, List.sorted_insertionSort _ _, by decide, by decide⟩
  intro e he hin
  have hafter := ((hmem e).1 hin).2
  rw [he, Time.After_iff] at hafter
  omega

end feed
